import Mathlib

/-!
Verification of the MotivateMe structured-output extraction pipeline
(`main.py`) and the evaluation scorer / mock selection policy
(`evaluate.py`).

Text is modelled as `List Char`.  Python's `str.strip` / `str.lower` are
modelled over ASCII whitespace and ASCII case, which covers every input
appearing in the claims.  Python floats are modelled as exact rationals
(`ℚ`); at every data point the claims mention, IEEE double arithmetic and
exact rational arithmetic agree.  `json.loads` is modelled by a fuel-based
recursive-descent parser for standard JSON (the nonstandard
`NaN`/`Infinity` extension and surrogate-pair combining are not modelled;
no claim depends on them).  Randomness (`random.sample`, `random.choice`)
is modelled by injected oracle functions.
-/

/-- ASCII whitespace recognised by Python's `str.strip` and the `\s`
regex class: space, tab, newline, carriage return, vertical tab, form feed. -/
def isPySpace (c : Char) : Bool :=
  c = ' ' || c = '\t' || c = '\n' || c = '\r' || c = '\x0b' || c = '\x0c'

/-- Model of Python `str.strip()`: drop leading and trailing whitespace. -/
def pyStrip (cs : List Char) : List Char :=
  ((cs.dropWhile isPySpace).reverse.dropWhile isPySpace).reverse

/-- Model of Python `str.lower()` (ASCII case folding). -/
def toLowerList (cs : List Char) : List Char :=
  cs.map Char.toLower

/-- Whether `p` is a prefix of `cs` (Boolean, by direct recursion). -/
def startsWithL : List Char → List Char → Bool
  | [], _ => true
  | _ :: _, [] => false
  | p :: ps, c :: cs => p = c && startsWithL ps cs

/-- Whether `s` is a suffix of `cs`. -/
def endsWithL (s cs : List Char) : Bool :=
  startsWithL s.reverse cs.reverse

/-- Whether `needle` occurs as a contiguous substring of `hay`
(model of Python's `in` on strings). -/
def isSubstringL (needle hay : List Char) : Bool :=
  match hay with
  | [] => needle.isEmpty
  | _ :: rest => startsWithL needle hay || isSubstringL needle rest

/-- The three-backtick fence marker. -/
def backticks3 : List Char := ['`', '`', '`']

/-- The `json` language tag (lower case). -/
def jsonTag : List Char := ['j', 's', 'o', 'n']

/-- Model of `strip_code_fences` from `main.py`: strip outer whitespace,
remove a leading fence of the literal regex form three backticks
optionally followed by `json` (case-insensitively) and following
whitespace, remove a trailing fence of whitespace followed by three
backticks, then strip again.  Empty input is returned unchanged, as in
the source. -/
def stripCodeFences (text : List Char) : List Char :=
  if text = [] then text else
  let t := pyStrip text
  let t1 :=
    if startsWithL backticks3 t then
      let r := t.drop 3
      let r := if toLowerList (r.take 4) = jsonTag then r.drop 4 else r
      r.dropWhile isPySpace
    else t
  let t2 :=
    if endsWithL backticks3 t1 then
      ((t1.reverse.drop 3).dropWhile isPySpace).reverse
    else t1
  pyStrip t2

/-- Model of the scanning loop of `extract_first_json` from `main.py`:
walk the characters, incrementing the depth on an opening brace and
decrementing it on a closing brace, returning the consumed characters as
soon as the depth reaches zero. -/
def scanBalanced : List Char → Int → List Char → Option (List Char)
  | [], _, _ => none
  | c :: rest, depth, acc =>
    if c = '\x7b' then scanBalanced rest (depth + 1) (acc ++ [c])
    else if c = '\x7d' then
      if depth - 1 = 0 then some (acc ++ [c])
      else scanBalanced rest (depth - 1) (acc ++ [c])
    else scanBalanced rest depth (acc ++ [c])

/-- Model of `extract_first_json` from `main.py`: find the first opening
brace and scan from there for the balanced closing brace; `none` when
there is no opening brace (which also covers empty input) or when the
scan runs off the end. -/
def extractFirstJson (text : List Char) : Option (List Char) :=
  let tail := text.dropWhile (fun c => c != '\x7b')
  match tail with
  | [] => none
  | _ :: _ => scanBalanced tail 0 []

/-- Depth contribution of one character: +1 for an opening brace, -1 for
a closing brace, 0 otherwise. -/
def braceDelta (c : Char) : Int :=
  if c = '\x7b' then 1 else if c = '\x7d' then -1 else 0

/-- Net brace depth of a character list. -/
def braceDepthL : List Char → Int
  | [] => 0
  | c :: rest => braceDelta c + braceDepthL rest

/-- Spec-side condition: position `k` of `suffix` holds a closing brace
that brings the running depth (counted from the start of `suffix`) back
to zero. -/
def closesAt (suffix : List Char) (k : Nat) : Bool :=
  decide ((suffix.drop k).head? = some '\x7d' ∧ braceDepthL (suffix.take (k + 1)) = 0)

/-- Modelled from the spec sentence for `extract_first_json_object`:
scan for the first opening brace (absent if none); from that position
return exactly the substring through the closing brace that first brings
the brace depth back to zero, absent if the depth never returns to zero. -/
def extractFirstJsonSpec (text : List Char) : Option (List Char) :=
  let suffix := text.dropWhile (fun c => c != '\x7b')
  match suffix with
  | [] => none
  | _ :: _ =>
    match (List.range suffix.length).find? (closesAt suffix) with
    | some k => some (suffix.take (k + 1))
    | none => none

/-- JSON values as produced by `json.loads`: Python `None`, `bool`,
numbers (modelled as exact rationals), `str`, `list` and `dict`.
Objects keep their pairs in insertion order with unique keys, as a
Python dict does. -/
inductive Json where
  | null
  | bool (b : Bool)
  | num (q : ℚ)
  | str (s : List Char)
  | arr (elems : List Json)
  | obj (pairs : List (List Char × Json))

/-- Dict insertion `d[k] = v`: overwrite in place if the key exists,
append otherwise (Python dict semantics, used by the object parser for
duplicate keys). -/
def objInsert : List (List Char × Json) → List Char → Json → List (List Char × Json)
  | [], k, v => [(k, v)]
  | (k0, v0) :: rest, k, v =>
    if k0 = k then (k0, v) :: rest else (k0, v0) :: objInsert rest k v

/-- Dict lookup: value of the first (hence, with `objInsert`, the only)
pair whose key matches. -/
def dictGet : List (List Char × Json) → List Char → Option Json
  | [], _ => none
  | (k0, v) :: rest, k => if k0 = k then some v else dictGet rest k

/-- JSON whitespace accepted between tokens by `json.loads`. -/
def isJsonWs (c : Char) : Bool :=
  c = ' ' || c = '\t' || c = '\n' || c = '\r'

/-- Skip JSON whitespace. -/
def skipWs (cs : List Char) : List Char := cs.dropWhile isJsonWs

/-- Value of a hexadecimal digit, if any. -/
def hexVal (c : Char) : Option Nat :=
  if '0' ≤ c ∧ c ≤ '9' then some (c.toNat - '0'.toNat)
  else if 'a' ≤ c ∧ c ≤ 'f' then some (c.toNat - 'a'.toNat + 10)
  else if 'A' ≤ c ∧ c ≤ 'F' then some (c.toNat - 'A'.toNat + 10)
  else none

/-- Numeric value of a digit string. -/
def digitsToNat (ds : List Char) : Nat :=
  ds.foldl (fun n c => 10 * n + (c.toNat - '0'.toNat)) 0

/-- Parse the body of a JSON string after the opening quote, with the
standard escapes (a lone `\uXXXX` becomes the code point directly;
surrogate-pair combining is not modelled).  Unescaped control characters
are rejected, as `json.loads` does in its default strict mode.  The fuel
dominates the number of remaining characters. -/
def parseStringBody : Nat → List Char → List Char → Option (List Char × List Char)
  | 0, _, _ => none
  | _ + 1, [], _ => none
  | fuel + 1, c :: rest, acc =>
    if c = '"' then some (acc.reverse, rest)
    else if c = '\\' then
      match rest with
      | [] => none
      | e :: rest2 =>
        if e = '"' then parseStringBody fuel rest2 ('"' :: acc)
        else if e = '\\' then parseStringBody fuel rest2 ('\\' :: acc)
        else if e = '/' then parseStringBody fuel rest2 ('/' :: acc)
        else if e = 'b' then parseStringBody fuel rest2 ('\x08' :: acc)
        else if e = 'f' then parseStringBody fuel rest2 ('\x0c' :: acc)
        else if e = 'n' then parseStringBody fuel rest2 ('\n' :: acc)
        else if e = 'r' then parseStringBody fuel rest2 ('\r' :: acc)
        else if e = 't' then parseStringBody fuel rest2 ('\t' :: acc)
        else if e = 'u' then
          match rest2 with
          | h1 :: h2 :: h3 :: h4 :: rest3 =>
            match hexVal h1, hexVal h2, hexVal h3, hexVal h4 with
            | some a, some b, some c2, some d =>
              parseStringBody fuel rest3 (Char.ofNat (((a * 16 + b) * 16 + c2) * 16 + d) :: acc)
            | _, _, _, _ => none
          | _ => none
        else none
    else if c.toNat < 32 then none
    else parseStringBody fuel rest (c :: acc)

/-- Parse a JSON number (optional minus, integer part without redundant
leading zeros, optional fraction, optional exponent) into an exact
rational. -/
def parseNumber (cs : List Char) : Option (ℚ × List Char) :=
  let (neg, cs1) :=
    match cs with
    | c :: rest => if c = '-' then (true, rest) else (false, cs)
    | [] => (false, cs)
  let intDigits := cs1.takeWhile Char.isDigit
  match intDigits with
  | [] => none
  | d0 :: ds0 =>
    if d0 = '0' ∧ ds0 ≠ [] then none else
    let cs2 := cs1.drop intDigits.length
    let intVal : ℚ := (digitsToNat intDigits : ℚ)
    let fracStep : Option (ℚ × List Char) :=
      match cs2 with
      | '.' :: rest =>
        let fd := rest.takeWhile Char.isDigit
        match fd with
        | [] => none
        | _ :: _ =>
          some (intVal + (digitsToNat fd : ℚ) / ((10 : ℚ) ^ fd.length), rest.drop fd.length)
      | _ => some (intVal, cs2)
    match fracStep with
    | none => none
    | some (mant, cs3) =>
      let expStep : Option (ℚ × List Char) :=
        match cs3 with
        | e :: rest =>
          if e = 'e' ∨ e = 'E' then
            let (eneg, rest2) :=
              match rest with
              | s :: r2 => if s = '-' then (true, r2) else if s = '+' then (false, r2) else (false, rest)
              | [] => (false, rest)
            let ed := rest2.takeWhile Char.isDigit
            match ed with
            | [] => none
            | _ :: _ =>
              let p : ℚ := (10 : ℚ) ^ digitsToNat ed
              some ((if eneg then mant / p else mant * p), rest2.drop ed.length)
          else some (mant, cs3)
        | [] => some (mant, cs3)
      match expStep with
      | none => none
      | some (v, cs4) => some ((if neg then -v else v), cs4)

/-- Core recursive-descent parser for `json.loads`.  `mode 0` parses one
value; `mode 1` parses the remaining items of an array into `accA`;
`mode 2` parses the remaining members of an object into `accO` (with
dict-style overwrite for duplicate keys).  Structural recursion on the
fuel keeps the definition kernel-reducible; the fuel passed in by
`jsonParse` strictly dominates the recursion depth. -/
def parseCore : Nat → Nat → List Json → List (List Char × Json) → List Char →
    Option (Json × List Char)
  | 0, _, _, _, _ => none
  | fuel + 1, 0, _, _, cs =>
    let cs := skipWs cs
    match cs with
    | [] => none
    | c :: rest =>
      if c = '"' then
        match parseStringBody rest.length rest [] with
        | some (s, rest2) => some (Json.str s, rest2)
        | none => none
      else if c = 't' then
        match rest with
        | 'r' :: 'u' :: 'e' :: rest2 => some (Json.bool true, rest2)
        | _ => none
      else if c = 'f' then
        match rest with
        | 'a' :: 'l' :: 's' :: 'e' :: rest2 => some (Json.bool false, rest2)
        | _ => none
      else if c = 'n' then
        match rest with
        | 'u' :: 'l' :: 'l' :: rest2 => some (Json.null, rest2)
        | _ => none
      else if c = '[' then
        match skipWs rest with
        | ']' :: rest2 => some (Json.arr [], rest2)
        | _ => parseCore fuel 1 [] [] rest
      else if c = '\x7b' then
        match skipWs rest with
        | '\x7d' :: rest2 => some (Json.obj [], rest2)
        | _ => parseCore fuel 2 [] [] rest
      else if c = '-' ∨ c.isDigit then
        match parseNumber cs with
        | some (q, rest2) => some (Json.num q, rest2)
        | none => none
      else none
  | fuel + 1, 1, accA, _, cs =>
    match parseCore fuel 0 [] [] cs with
    | none => none
    | some (v, rest) =>
      match skipWs rest with
      | ',' :: rest2 => parseCore fuel 1 (v :: accA) [] rest2
      | ']' :: rest2 => some (Json.arr (v :: accA).reverse, rest2)
      | _ => none
  | fuel + 1, _, _, accO, cs =>
    match skipWs cs with
    | '"' :: rest =>
      match parseStringBody rest.length rest [] with
      | none => none
      | some (k, rest2) =>
        match skipWs rest2 with
        | ':' :: rest3 =>
          match parseCore fuel 0 [] [] rest3 with
          | none => none
          | some (v, rest4) =>
            match skipWs rest4 with
            | ',' :: rest5 => parseCore fuel 2 [] (objInsert accO k v) rest5
            | '\x7d' :: rest5 => some (Json.obj (objInsert accO k v), rest5)
            | _ => none
        | _ => none
    | _ => none

/-- Model of `json.loads` on text: parse one JSON value and require that
only whitespace remains (Python raises `Extra data` otherwise); `none`
models a raised `ValueError`. -/
def jsonParse (cs : List Char) : Option Json :=
  match parseCore (2 * cs.length + 8) 0 [] [] cs with
  | some (v, rest) => if skipWs rest = [] then some v else none
  | none => none

/-- The four required keys of `validate_structured_output`, in checking
order. -/
def requiredKeys : List (List Char) :=
  ["mood".data, "quote".data, "author".data, "suggested_action".data]

/-- Failure message for an absent key. -/
def missingMsg (k : List Char) : List Char := "Missing key: ".data ++ k

/-- Failure message for a present key whose value is not a string or is
empty after trimming. -/
def invalidMsg (k : List Char) : List Char :=
  "Invalid or empty value for key: ".data ++ k

/-- The loop body of `validate_structured_output`: check the keys in
order, failing on the first absent key or the first value that is not a
non-empty trimmed string. -/
def checkKeys : List (List Char) → List (List Char × Json) → Bool × List Char
  | [], _ => (true, "OK".data)
  | k :: ks, kvs =>
    match dictGet kvs k with
    | none => (false, missingMsg k)
    | some (Json.str s) =>
      if pyStrip s = [] then (false, invalidMsg k) else checkKeys ks kvs
    | some _ => (false, invalidMsg k)

/-- Model of `validate_structured_output` from `main.py`. -/
def validateStructuredOutput (v : Json) : Bool × List Char :=
  match v with
  | Json.obj kvs => checkKeys requiredKeys kvs
  | _ => (false, "Output is not a JSON object".data)

/-- Whether key `k` of the pair list holds a string that is non-empty
after trimming (the per-key condition of the validator, as a Boolean). -/
def goodKeyB (kvs : List (List Char × Json)) (k : List Char) : Bool :=
  match dictGet kvs k with
  | some (Json.str s) => !(pyStrip s).isEmpty
  | _ => false

/-- The message the validator produces for a bad key `k`: the missing-key
message when the key is absent, the invalid-value message otherwise. -/
def keyErr (kvs : List (List Char × Json)) (k : List Char) : List Char :=
  match dictGet kvs k with
  | none => missingMsg k
  | some _ => invalidMsg k

/-- Outcome of the parse-and-validate stage of
`get_structured_or_function_call`, distinguishing the two failure
messages the source prints: `parseError` models the branch printing
`Could not parse JSON from model output` (echoing the raw text) and
`validationError` the branch printing `Validation Failed` with the
validator's message. -/
inductive ExtractResult where
  | ok (record : Json)
  | parseError (raw : List Char)
  | validationError (msg : List Char)

/-- The parse stage of `get_structured_or_function_call`: try
`json.loads` on the cleaned text; on a raised error, run
`extract_first_json` and, if it found a non-empty candidate, try
`json.loads` on that.  The result is the value of the Python variable
`parsed` when parsing raised or returned, `none` when it stayed `None`
through failures. -/
def getParsed (cleaned : List Char) : Option Json :=
  match jsonParse cleaned with
  | some v => some v
  | none =>
    match extractFirstJson cleaned with
    | none => none
    | some candidate => if candidate.isEmpty then none else jsonParse candidate

/-- The body of `get_structured_or_function_call` after the model call:
strip fences, parse (directly, then via extraction), treat a `parsed`
that `is None` as the parse-error branch, and otherwise validate. -/
def parseAndValidate (raw : List Char) : ExtractResult :=
  let cleaned := stripCodeFences raw
  match getParsed cleaned with
  | none => ExtractResult.parseError raw
  | some Json.null => ExtractResult.parseError raw
  | some v =>
    match validateStructuredOutput v with
    | (true, _) => ExtractResult.ok v
    | (false, msg) => ExtractResult.validationError msg

/-- The system instruction string built by
`get_structured_or_function_call` (with the stop marker interpolated). -/
def systemInstr : List Char :=
  ("\n    You are a motivational assistant. Generate a motivational quote based on the user\x27s mood.\n\nReturn a JSON object with keys: mood, quote, author, suggested_action.\n- mood: should match or relate to the user\x27s input mood\n- quote: an inspiring motivational quote\n- author: the author of the quote\n- suggested_action: a practical action the user can take\n\nRespond ONLY with valid JSON, no extra text or formatting. End with <END_JSON>.\n").data

/-- The prompt sent to the model collaborator for a given user mood. -/
def buildPrompt (userMood : List Char) : List Char :=
  systemInstr ++ "\n".data ++ "User mood: \"".data ++ userMood ++ "\".".data
    ++ "\nOutput JSON now:\n".data

/-- Result of the structured-fetch operation: the returned value (the
validated record, or `none` on any failure) together with the list of
prompts sent to the model collaborator, in order. -/
structure FetchResult where
  result : Option Json
  calls : List (List Char)

/-- Model of `get_structured_or_function_call` from `main.py` with the
network collaborator (`call_google_studio_structured`) injected as a
function from prompt text to raw reply text.  The source performs a
single collaborator call, parses and validates the reply, and returns
the parsed record on success and `None` on any failure; there is no
retry loop. -/
def getStructuredOrFunctionCall (modelCaller : List Char → List Char)
    (userMood : List Char) : FetchResult :=
  let prompt := buildPrompt userMood
  let raw := modelCaller prompt
  match parseAndValidate raw with
  | ExtractResult.ok v => { result := some v, calls := [prompt] }
  | _ => { result := none, calls := [prompt] }

/-- Length of the longest common prefix of two character lists (the size
of the matching run starting at a given pair of positions). -/
def commonRun : List Char → List Char → Nat
  | a :: as_, b :: bs => if a = b then commonRun as_ bs + 1 else 0
  | _, _ => 0

/-- Model of `difflib.SequenceMatcher.find_longest_match` over the whole
strings (no junk: `autojunk` only engages for sequences of 200 or more
elements, far beyond every input these claims touch): among all pairs of
positions, the longest matching run, taking the lexicographically first
pair of start positions among runs of maximal length — exactly the block
difflib reports, since its scan keeps the first strictly greater run
found in ascending end-position order. -/
def bestMatch (a b : List Char) : Nat × Nat × Nat :=
  (List.range a.length).foldl (fun best i =>
    (List.range b.length).foldl (fun best j =>
      let k := commonRun (a.drop i) (b.drop j)
      if k > best.2.2 then (i, j, k) else best) best) (0, 0, 0)

/-- Total size of the matching blocks of
`difflib.SequenceMatcher.get_matching_blocks`: the longest match splits
both strings, and the regions to its left and right are matched
recursively.  The fuel only bounds the recursion depth; one unit per
level with `length a + length b + 1` at the top strictly dominates it,
because each recursive region is strictly shorter in combined length. -/
def matchTotalF : Nat → List Char → List Char → Nat
  | 0, _, _ => 0
  | fuel + 1, a, b =>
    match bestMatch a b with
    | (i, j, k) =>
      if k = 0 then 0
      else
        matchTotalF fuel (a.take i) (b.take j) + k
          + matchTotalF fuel (a.drop (i + k)) (b.drop (j + k))

/-- Total matched size between two character lists. -/
def matchTotal (a b : List Char) : Nat :=
  matchTotalF (a.length + b.length + 1) a b

/-- Model of `difflib.SequenceMatcher.ratio`: twice the total matched
size over the total length, and 1 when both sequences are empty. -/
def ratioQ (a b : List Char) : ℚ :=
  let total := a.length + b.length
  if total = 0 then 1 else 2 * (matchTotal a b : ℚ) / (total : ℚ)

/-- Model of `similar` from `evaluate.py`: substitute the empty string
for an absent argument (Python `a or ""`), lower-case, trim, and take
the sequence-similarity ratio. -/
def similar (a b : Option (List Char)) : ℚ :=
  ratioQ (pyStrip (toLowerList (a.getD []))) (pyStrip (toLowerList (b.getD [])))

/-- A record as handled by `evaluate.py`: a dict whose four relevant
fields may each be absent (`dict.get` supplies the default). -/
structure SRecord where
  mood : Option (List Char)
  quote : Option (List Char)
  author : Option (List Char)
  suggested_action : Option (List Char)
deriving DecidableEq

/-- The five scores produced by `auto_judge`. -/
structure ScoreReport where
  mood_score : ℚ
  quote_score : ℚ
  author_score : ℚ
  action_score : ℚ
  overall_score : ℚ
deriving DecidableEq

/-- Model of `auto_judge` from `evaluate.py`: the four field
similarities (each field read with `dict.get(key, "")`) and their fixed
weighted sum.  The float constants 0.25, 0.45, 0.15 are modelled as
exact rationals. -/
def autoJudge (expected actual : SRecord) : ScoreReport :=
  let ms := similar (some (expected.mood.getD [])) (some (actual.mood.getD []))
  let qs := similar (some (expected.quote.getD [])) (some (actual.quote.getD []))
  let aus := similar (some (expected.author.getD [])) (some (actual.author.getD []))
  let acs := similar (some (expected.suggested_action.getD []))
    (some (actual.suggested_action.getD []))
  { mood_score := ms
  , quote_score := qs
  , author_score := aus
  , action_score := acs
  , overall_score := 25 / 100 * ms + 45 / 100 * qs + 15 / 100 * aus + 15 / 100 * acs }

/-- The fixed fallback record of `mock_model`, returned whenever the
candidate pool is empty: the raw input as mood, a generic encouragement
quote, author `AI Coach`, and a generic suggested action. -/
def fallbackRecord (userInput : Option (List Char)) : SRecord :=
  { mood := userInput
  , quote := some "Keep going, you\x27re doing better than you think.".data
  , author := some "AI Coach".data
  , suggested_action := some "Pause and breathe.".data }

/-- The `matches` filter of `mock_model`: database entries whose
lower-cased mood field (`q.get("mood", "").lower()`) occurs as a
substring of the lower-cased user input. -/
def moodMatches (userInput : Option (List Char)) (db : List SRecord) : List SRecord :=
  let uil := toLowerList (userInput.getD [])
  db.filter (fun q => isSubstringL (toLowerList (q.mood.getD [])) uil)

/-- The initial candidate pool of `mock_model`: the matches when
non-empty, otherwise the full database. -/
def baseCandidates (userInput : Option (List Char)) (db : List SRecord) : List SRecord :=
  match moodMatches userInput db with
  | [] => db
  | m :: ms => m :: ms

/-- The `top_k` stage of `mock_model`: when a positive bound is supplied
and the pool is larger, replace the pool by a random sample of that
size.  `random.sample` is injected as the oracle `sample`. -/
def applyTopK (sample : List SRecord → Nat → List SRecord) (tk : Option Int)
    (pool : List SRecord) : List SRecord :=
  match tk with
  | none => pool
  | some k =>
    if 0 < k then (if (k : Int) < (pool.length : Int) then sample pool k.toNat else pool)
    else pool

/-- The `top_p` stage of `mock_model`: when a fraction strictly between
0 and 1 is supplied and the pool is non-empty, keep the first
`max 1 (ceil (len * top_p))` entries of the (now fixed) pool. -/
def applyTopP (tp : Option ℚ) (pool : List SRecord) : List SRecord :=
  match tp with
  | none => pool
  | some p =>
    match pool with
    | [] => pool
    | x :: xs =>
      if 0 < p ∧ p < 1 then
        (x :: xs).take (max 1 (Nat.ceil (((x :: xs).length : ℚ) * p)))
      else x :: xs

/-- The candidate pool `mock_model` selects from, after the matching,
`top_k` and `top_p` stages in source order. -/
def mockPool (userInput : Option (List Char)) (db : List SRecord)
    (tk : Option Int) (tp : Option ℚ)
    (sample : List SRecord → Nat → List SRecord) : List SRecord :=
  applyTopP tp (applyTopK sample tk (baseCandidates userInput db))

/-- Model of `mock_model` from `evaluate.py`.  `random.sample` and
`random.choice` are injected as the oracles `sample` and `choice`.
With an empty pool the fixed fallback record is returned; with
`temperature <= 0` the first pool entry; otherwise the oracle's pick
from the pool. -/
def mockModel (userInput : Option (List Char)) (db : List SRecord) (temperature : ℚ)
    (tk : Option Int) (tp : Option ℚ)
    (sample : List SRecord → Nat → List SRecord)
    (choice : List SRecord → SRecord) : SRecord :=
  let pool := mockPool userInput db tk tp sample
  match pool with
  | [] => fallbackRecord userInput
  | x :: xs => if temperature ≤ 0 then x else choice (x :: xs)

/-- Whether a JSON value is neither `null` (Python `None`) nor an
object: exactly the parsed values the validator rejects with the
message `Output is not a JSON object`. -/
def isNonObjectNonNull : Json → Bool
  | Json.null => false
  | Json.obj _ => false
  | _ => true

/-- Index, relative to the current position, of the first character at
which the running brace depth (starting from `d`) reaches zero at a
closing brace; `none` when it never does.  Recursive restatement of the
scanning loop used to relate `scanBalanced` to the spec-side search. -/
def hitIdx : List Char → Int → Option Nat
  | [], _ => none
  | c :: rest, d =>
    if c = '\x7b' then (hitIdx rest (d + 1)).map (· + 1)
    else if c = '\x7d' then
      if d - 1 = 0 then some 0 else (hitIdx rest (d - 1)).map (· + 1)
    else (hitIdx rest d).map (· + 1)

/-- A predicate preserved by every step of a left fold holds of the
result. -/
theorem foldl_preserve {α β : Type _} (P : β → Prop) (f : β → α → β) :
    ∀ (l : List α) (init : β), P init →
      (∀ acc x, x ∈ l → P acc → P (f acc x)) → P (l.foldl f init)
  | [], _, h, _ => h
  | x :: xs, init, h, hstep =>
    foldl_preserve P f xs (f init x) (hstep init x (List.mem_cons_self x xs) h)
      (fun acc y hy hacc => hstep acc y (List.mem_cons_of_mem x hy) hacc)

/-- A matching run is no longer than the first sequence. -/
theorem commonRun_le_left : ∀ a b : List Char, commonRun a b ≤ a.length
  | [], _ => by simp [commonRun]
  | _ :: _, [] => by simp [commonRun]
  | a :: as_, b :: bs => by
    simp only [commonRun, List.length_cons]
    split
    · exact Nat.succ_le_succ (commonRun_le_left as_ bs)
    · exact Nat.zero_le _

/-- A matching run is no longer than the second sequence. -/
theorem commonRun_le_right : ∀ a b : List Char, commonRun a b ≤ b.length
  | [], _ => by simp [commonRun]
  | _ :: _, [] => by simp [commonRun]
  | a :: as_, b :: bs => by
    simp only [commonRun, List.length_cons]
    split
    · exact Nat.succ_le_succ (commonRun_le_right as_ bs)
    · exact Nat.zero_le _

/-- The longest matching block fits inside both sequences. -/
theorem bestMatch_bound (a b : List Char) :
    (bestMatch a b).1 + (bestMatch a b).2.2 ≤ a.length ∧
      (bestMatch a b).2.1 + (bestMatch a b).2.2 ≤ b.length := by
  unfold bestMatch
  apply foldl_preserve
    (fun best : Nat × Nat × Nat => best.1 + best.2.2 ≤ a.length ∧ best.2.1 + best.2.2 ≤ b.length)
  · exact ⟨Nat.zero_le _, Nat.zero_le _⟩
  · intro acc i hi hacc
    apply foldl_preserve
      (fun best : Nat × Nat × Nat => best.1 + best.2.2 ≤ a.length ∧ best.2.1 + best.2.2 ≤ b.length)
    · exact hacc
    · intro acc' j hj hacc'
      have hik : commonRun (a.drop i) (b.drop j) ≤ a.length - i := by
        have := commonRun_le_left (a.drop i) (b.drop j)
        simpa using this
      have hjk : commonRun (a.drop i) (b.drop j) ≤ b.length - j := by
        have := commonRun_le_right (a.drop i) (b.drop j)
        simpa using this
      have hi' : i < a.length := List.mem_range.mp hi
      have hj' : j < b.length := List.mem_range.mp hj
      dsimp only
      split
      · refine ⟨?_, ?_⟩ <;> dsimp only <;> omega
      · exact hacc'

/-- The total matched size is bounded by the length of either sequence,
at every fuel. -/
theorem matchTotalF_le : ∀ (fuel : Nat) (a b : List Char),
    matchTotalF fuel a b ≤ a.length ∧ matchTotalF fuel a b ≤ b.length := by
  intro fuel
  induction fuel with
  | zero => intro a b; simp [matchTotalF]
  | succ n ih =>
    intro a b
    have hb := bestMatch_bound a b
    simp only [matchTotalF]
    rcases h : bestMatch a b with ⟨i, j, k⟩
    rw [h] at hb
    simp only at hb
    split
    · simp
    · have h1 := ih (a.take i) (b.take j)
      have h2 := ih (a.drop (i + k)) (b.drop (j + k))
      simp only [List.length_take, List.length_drop] at h1 h2
      dsimp only at hb ⊢
      constructor
      · omega
      · omega

/-- The total matched size is bounded by the length of either sequence. -/
theorem matchTotal_le (a b : List Char) :
    matchTotal a b ≤ a.length ∧ matchTotal a b ≤ b.length :=
  matchTotalF_le (a.length + b.length + 1) a b

/-- The similarity ratio is non-negative. -/
theorem ratioQ_nonneg (a b : List Char) : 0 ≤ ratioQ a b := by
  unfold ratioQ
  dsimp only
  split
  · norm_num
  · positivity

/-- The similarity ratio is at most one. -/
theorem ratioQ_le_one (a b : List Char) : ratioQ a b ≤ 1 := by
  unfold ratioQ
  dsimp only
  split
  · norm_num
  · rename_i htot
    have hM := matchTotal_le a b
    have hnum : (2 * (matchTotal a b : ℚ)) ≤ ((a.length + b.length : Nat) : ℚ) := by
      have : 2 * matchTotal a b ≤ a.length + b.length := by omega
      exact_mod_cast this
    have hpos : (0 : ℚ) < ((a.length + b.length : Nat) : ℚ) := by
      have : 0 < a.length + b.length := Nat.pos_of_ne_zero htot
      exact_mod_cast this
    rw [div_le_one hpos]
    push_cast at hnum ⊢
    linarith

/-- C6: for all inputs, including absent ones treated as empty strings,
`similar` returns the case-insensitive whitespace-trimmed
sequence-similarity ratio, which lies in the interval from 0 to 1; in
particular `Hello` against `hello` scores 1, empty against empty scores
1, and `abc` against `xyz` scores below 0.3. -/
theorem similar_ratio_properties :
    (∀ a b : Option (List Char),
      similar a b = ratioQ (pyStrip (toLowerList (a.getD []))) (pyStrip (toLowerList (b.getD []))))
    ∧ (∀ a b : Option (List Char), 0 ≤ similar a b ∧ similar a b ≤ 1)
    ∧ (∀ b : Option (List Char), similar none b = similar (some []) b)
    ∧ (∀ a : Option (List Char), similar a none = similar a (some []))
    ∧ similar (some "Hello".data) (some "hello".data) = 1
    ∧ similar (some "".data) (some "".data) = 1
    ∧ similar (some "abc".data) (some "xyz".data) < 3 / 10 := by
  refine ⟨?_, ?_, ?_, ?_, ?_, ?_, ?_⟩
  · intro a b; rfl
  · intro a b; exact ⟨ratioQ_nonneg _ _, ratioQ_le_one _ _⟩
  · intro b; rfl
  · intro a; rfl
  · show ratioQ "hello".data "hello".data = 1
    have h5 : matchTotal "hello".data "hello".data = 5 := by rfl
    unfold ratioQ
    norm_num [h5]
  · rfl
  · show ratioQ "abc".data "xyz".data < 3 / 10
    have h0 : matchTotal "abc".data "xyz".data = 0 := by rfl
    unfold ratioQ
    norm_num [h0]

/-- C7: `auto_judge` scores each of the four fields by `similar` and
combines them with the fixed weights 0.25, 0.45, 0.15, 0.15; when all
four field similarities are 1 the overall score is exactly 1, and when
all four are 0 it is exactly 0. -/
theorem autoJudge_weighted_overall :
    (∀ e a : SRecord,
      (autoJudge e a).mood_score = similar e.mood a.mood ∧
      (autoJudge e a).quote_score = similar e.quote a.quote ∧
      (autoJudge e a).author_score = similar e.author a.author ∧
      (autoJudge e a).action_score = similar e.suggested_action a.suggested_action ∧
      (autoJudge e a).overall_score =
        25 / 100 * (autoJudge e a).mood_score + 45 / 100 * (autoJudge e a).quote_score
          + 15 / 100 * (autoJudge e a).author_score + 15 / 100 * (autoJudge e a).action_score)
    ∧ (∀ e a : SRecord, (autoJudge e a).mood_score = 1 → (autoJudge e a).quote_score = 1 →
        (autoJudge e a).author_score = 1 → (autoJudge e a).action_score = 1 →
        (autoJudge e a).overall_score = 1)
    ∧ (∀ e a : SRecord, (autoJudge e a).mood_score = 0 → (autoJudge e a).quote_score = 0 →
        (autoJudge e a).author_score = 0 → (autoJudge e a).action_score = 0 →
        (autoJudge e a).overall_score = 0) := by
  refine ⟨?_, ?_, ?_⟩
  · intro e a
    exact ⟨rfl, rfl, rfl, rfl, rfl⟩
  · intro e a h1 h2 h3 h4
    have h5 : (autoJudge e a).overall_score =
        25 / 100 * (autoJudge e a).mood_score + 45 / 100 * (autoJudge e a).quote_score
          + 15 / 100 * (autoJudge e a).author_score + 15 / 100 * (autoJudge e a).action_score := rfl
    rw [h5, h1, h2, h3, h4]
    norm_num
  · intro e a h1 h2 h3 h4
    have h5 : (autoJudge e a).overall_score =
        25 / 100 * (autoJudge e a).mood_score + 45 / 100 * (autoJudge e a).quote_score
          + 15 / 100 * (autoJudge e a).author_score + 15 / 100 * (autoJudge e a).action_score := rfl
    rw [h5, h1, h2, h3, h4]
    norm_num

/-- Witness for C7: on two identical fully-populated records every field
similarity is 1, and the theorem yields an overall score of exactly 1. -/
theorem autoJudge_weighted_overall_witness :
    (autoJudge ⟨some "x".data, some "x".data, some "x".data, some "x".data⟩
        ⟨some "x".data, some "x".data, some "x".data, some "x".data⟩).overall_score = 1 := by
  have hx : ratioQ "x".data "x".data = 1 := by
    have h1 : matchTotal "x".data "x".data = 1 := by rfl
    unfold ratioQ
    norm_num [h1]
  exact autoJudge_weighted_overall.2.1 _ _ hx hx hx hx

/-- The key check succeeds exactly when every listed key holds a
non-empty trimmed string. -/
theorem checkKeys_true_iff : ∀ (ks : List (List Char)) (kvs : List (List Char × Json)),
    (checkKeys ks kvs).1 = true ↔ ∀ k ∈ ks, goodKeyB kvs k = true := by
  intro ks kvs
  induction ks with
  | nil => simp [checkKeys]
  | cons k rest ih =>
    simp only [checkKeys, List.mem_cons]
    rcases hg : dictGet kvs k with _ | v
    · have hgk : goodKeyB kvs k = false := by simp [goodKeyB, hg]
      constructor
      · intro h; exact absurd h (by simp)
      · intro h
        have := h k (Or.inl rfl)
        rw [hgk] at this
        exact absurd this (by simp)
    · rcases v with _ | b | q | s | elems | pairs
      case str =>
        have hgk : goodKeyB kvs k = (!(pyStrip s).isEmpty) := by simp [goodKeyB, hg]
        dsimp only
        by_cases hs : pyStrip s = []
        · rw [if_pos hs]
          constructor
          · intro h; exact absurd h (by simp)
          · intro h
            have := h k (Or.inl rfl)
            rw [hgk, hs] at this
            exact absurd this (by simp)
        · rw [if_neg hs]
          rw [ih]
          constructor
          · intro h k' hk'
            rcases hk' with h1 | h2
            · subst h1
              rw [hgk]
              simp [hs]
            · exact h k' h2
          · intro h k' hk'
            exact h k' (Or.inr hk')
      all_goals
        first
        | (have hgk : goodKeyB kvs k = false := by simp [goodKeyB, hg]
           constructor
           · intro h; exact absurd h (by simp)
           · intro h
             have := h k (Or.inl rfl)
             rw [hgk] at this
             exact absurd this (by simp))

/-- When every key before `k` is good and `k` is bad, the key check
stops at `k` with the message the validator produces for `k`. -/
theorem checkKeys_first_bad : ∀ (pre : List (List Char)) (k : List Char)
    (post : List (List Char)) (kvs : List (List Char × Json)),
    (∀ k' ∈ pre, goodKeyB kvs k' = true) → goodKeyB kvs k = false →
    checkKeys (pre ++ k :: post) kvs = (false, keyErr kvs k) := by
  intro pre
  induction pre with
  | nil =>
    intro k post kvs _ hbad
    simp only [List.nil_append, checkKeys]
    rcases hg : dictGet kvs k with _ | v
    · simp [keyErr, hg]
    · rcases v with _ | b | q | s | elems | pairs
      case str =>
        have : goodKeyB kvs k = (!(pyStrip s).isEmpty) := by simp [goodKeyB, hg]
        rw [this] at hbad
        have hs : pyStrip s = [] := by
          rcases h : pyStrip s with _ | _
          · rfl
          · rw [h] at hbad; simp at hbad
        dsimp only
        rw [if_pos hs]
        simp [keyErr, hg]
      all_goals simp [keyErr, hg]
  | cons k0 pre' ih =>
    intro k post kvs hgood hbad
    have h0 : goodKeyB kvs k0 = true := hgood k0 (List.mem_cons_self _ _)
    simp only [List.cons_append, checkKeys]
    revert h0
    simp only [goodKeyB]
    rcases hg : dictGet kvs k0 with _ | v
    · intro h0; exact absurd h0 (by simp)
    · rcases v with _ | b | q | s | elems | pairs
      case str =>
        intro h0
        dsimp only at h0
        have hs : ¬ pyStrip s = [] := by
          intro hcon
          rw [hcon] at h0
          exact absurd h0 (by simp)
        dsimp only
        rw [if_neg hs]
        exact ih k post kvs (fun k' hk' => hgood k' (List.mem_cons_of_mem _ hk')) hbad
      all_goals (intro h0; exact absurd h0 (by simp))

/-- C5: validation of a parsed object succeeds exactly when all four
required keys hold strings that are non-empty after trimming, and on
failure it reports the first bad key in the fixed checking order, with
the missing-key message when the key is absent and the invalid-value
message otherwise. -/
theorem validateStructuredOutput_spec :
    (∀ kvs, (validateStructuredOutput (Json.obj kvs)).1 = true ↔
      ∀ k ∈ requiredKeys, goodKeyB kvs k = true)
    ∧ (∀ kvs pre k post, requiredKeys = pre ++ k :: post →
        (∀ k' ∈ pre, goodKeyB kvs k' = true) → goodKeyB kvs k = false →
        validateStructuredOutput (Json.obj kvs) = (false, keyErr kvs k)) := by
  constructor
  · intro kvs
    exact checkKeys_true_iff requiredKeys kvs
  · intro kvs pre k post hsplit hgood hbad
    show checkKeys requiredKeys kvs = (false, keyErr kvs k)
    rw [hsplit]
    exact checkKeys_first_bad pre k post kvs hgood hbad

/-- Witness for C5: an object holding valid `mood`, `quote` and `author`
but no `suggested_action` fails with the message naming
`suggested_action`. -/
theorem validateStructuredOutput_spec_witness :
    validateStructuredOutput (Json.obj [("mood".data, Json.str "tired".data),
        ("quote".data, Json.str "x".data), ("author".data, Json.str "y".data)])
      = (false, "Missing key: suggested_action".data) := by
  have h := validateStructuredOutput_spec.2
    [("mood".data, Json.str "tired".data), ("quote".data, Json.str "x".data),
      ("author".data, Json.str "y".data)]
    ["mood".data, "quote".data, "author".data] "suggested_action".data [] rfl
    (by decide) (by decide)
  rw [h]
  rfl

/-- C10: an object whose four required keys hold non-empty trimmed
strings validates no matter what additional keys it carries, and the
pipeline returns (and hands to persistence) the full parsed object with
the extra keys retained unchanged. -/
theorem validate_extra_keys_retained :
    ∀ kvs : List (List Char × Json), (∀ k ∈ requiredKeys, goodKeyB kvs k = true) →
      ((validateStructuredOutput (Json.obj kvs)).1 = true
      ∧ (∀ raw, getParsed (stripCodeFences raw) = some (Json.obj kvs) →
          parseAndValidate raw = ExtractResult.ok (Json.obj kvs))
      ∧ (∀ mc mood, parseAndValidate (mc (buildPrompt mood)) = ExtractResult.ok (Json.obj kvs) →
          (getStructuredOrFunctionCall mc mood).result = some (Json.obj kvs))) := by
  intro kvs hgood
  have hval : (validateStructuredOutput (Json.obj kvs)).1 = true :=
    (checkKeys_true_iff requiredKeys kvs).mpr hgood
  refine ⟨hval, ?_, ?_⟩
  · intro raw hp
    have hdef : parseAndValidate raw =
        (match getParsed (stripCodeFences raw) with
        | none => ExtractResult.parseError raw
        | some Json.null => ExtractResult.parseError raw
        | some v =>
          match validateStructuredOutput v with
          | (true, _) => ExtractResult.ok v
          | (false, msg) => ExtractResult.validationError msg) := rfl
    rw [hdef, hp]
    dsimp only
    rcases hv : validateStructuredOutput (Json.obj kvs) with ⟨b, msg⟩
    rw [hv] at hval
    simp only at hval
    subst hval
    rfl
  · intro mc mood hok
    have hdef : getStructuredOrFunctionCall mc mood =
        (match parseAndValidate (mc (buildPrompt mood)) with
        | ExtractResult.ok v =>
          { result := some v, calls := [buildPrompt mood] }
        | _ => { result := none, calls := [buildPrompt mood] }) := rfl
    rw [hdef, hok]

/-- Witness for C10: a reply object carrying a fifth key `extra`
validates and is returned whole, with the extra key still present. -/
theorem validate_extra_keys_retained_witness :
    parseAndValidate "\x7b\"mood\":\"m\",\"quote\":\"q\",\"author\":\"a\",\"suggested_action\":\"s\",\"extra\":\"z\"\x7d".data
      = ExtractResult.ok (Json.obj [("mood".data, Json.str "m".data),
          ("quote".data, Json.str "q".data), ("author".data, Json.str "a".data),
          ("suggested_action".data, Json.str "s".data), ("extra".data, Json.str "z".data)]) :=
  (validate_extra_keys_retained _ (by decide)).2.1 _ (by rfl)

/-- C1 (amended): the structured-fetch operation sends the constructed
prompt to the injected collaborator exactly once, feeds the reply
through parse-and-validate, and returns the record on success and
absent on any failure — there is no second collaborator call. -/
theorem getStructured_single_call :
    ∀ (mc : List Char → List Char) (mood : List Char),
      (getStructuredOrFunctionCall mc mood).calls = [buildPrompt mood]
      ∧ ((getStructuredOrFunctionCall mc mood).result =
          match parseAndValidate (mc (buildPrompt mood)) with
          | ExtractResult.ok v => some v
          | _ => none) := by
  intro mc mood
  have hdef : getStructuredOrFunctionCall mc mood =
      (match parseAndValidate (mc (buildPrompt mood)) with
      | ExtractResult.ok v =>
        { result := some v, calls := [buildPrompt mood] }
      | _ => { result := none, calls := [buildPrompt mood] }) := rfl
  rw [hdef]
  rcases parseAndValidate (mc (buildPrompt mood)) with v | r | m
  · exact ⟨rfl, rfl⟩
  · exact ⟨rfl, rfl⟩
  · exact ⟨rfl, rfl⟩

/-- Counterexample for C1: with a collaborator that always replies with
malformed text, the operation returns absent after exactly one
collaborator call — not the two calls the claim asserts. -/
theorem getStructured_single_call_counterexample :
    (getStructuredOrFunctionCall (fun _ => "oops, not json".data) "sad".data).result = none
    ∧ (getStructuredOrFunctionCall (fun _ => "oops, not json".data) "sad".data).calls.length = 1
    ∧ (getStructuredOrFunctionCall (fun _ => "oops, not json".data) "sad".data).calls.length ≠ 2 := by
  refine ⟨rfl, rfl, ?_⟩
  intro h
  have h1 : (getStructuredOrFunctionCall (fun _ => "oops, not json".data)
      "sad".data).calls.length = 1 := rfl
  rw [h] at h1
  exact absurd h1 (by decide)

/-- C2 (amended): the parse stage tries the fence-stripped text
directly first and consults `extract_first_json` only when the direct
parse raises; when both parse attempts fail — or the parsed value is
JSON `null`, which the source's `is None` test cannot tell apart from a
parse failure — the outcome is a `ParseError`; when the parse succeeds
with a non-null value that is not a JSON object, the outcome is a
`ValidationError` with the message `Output is not a JSON object`; the
two outcomes are distinct. -/
theorem parse_then_extract_pipeline :
    (∀ cleaned v, jsonParse cleaned = some v → getParsed cleaned = some v)
    ∧ (∀ cleaned, jsonParse cleaned = none →
        getParsed cleaned =
          (match extractFirstJson cleaned with
          | none => none
          | some candidate => if candidate.isEmpty then none else jsonParse candidate))
    ∧ (∀ raw, getParsed (stripCodeFences raw) = none →
        parseAndValidate raw = ExtractResult.parseError raw)
    ∧ (∀ raw, getParsed (stripCodeFences raw) = some Json.null →
        parseAndValidate raw = ExtractResult.parseError raw)
    ∧ (∀ raw v, getParsed (stripCodeFences raw) = some v → isNonObjectNonNull v = true →
        parseAndValidate raw = ExtractResult.validationError "Output is not a JSON object".data)
    ∧ (∀ r m, ExtractResult.parseError r ≠ ExtractResult.validationError m) := by
  have hdefPV : ∀ raw, parseAndValidate raw =
      (match getParsed (stripCodeFences raw) with
      | none => ExtractResult.parseError raw
      | some Json.null => ExtractResult.parseError raw
      | some v =>
        match validateStructuredOutput v with
        | (true, _) => ExtractResult.ok v
        | (false, msg) => ExtractResult.validationError msg) := fun _ => rfl
  refine ⟨?_, ?_, ?_, ?_, ?_, ?_⟩
  · intro cleaned v h
    unfold getParsed
    rw [h]
  · intro cleaned h
    unfold getParsed
    rw [h]
  · intro raw h
    rw [hdefPV raw, h]
  · intro raw h
    rw [hdefPV raw, h]
  · intro raw v h hnn
    rw [hdefPV raw, h]
    rcases v with _ | b | q | s | elems | pairs
    · exact absurd hnn (by simp [isNonObjectNonNull])
    · rfl
    · rfl
    · rfl
    · rfl
    · exact absurd hnn (by simp [isNonObjectNonNull])
  · intro r m h
    exact ExtractResult.noConfusion h

/-- Witness for C2: on text with no JSON object at all, both parse
attempts fail and the outcome is the parse-error branch echoing the raw
text. -/
theorem parse_then_extract_pipeline_witness :
    parseAndValidate "foo".data = ExtractResult.parseError "foo".data :=
  parse_then_extract_pipeline.2.2.1 "foo".data (by rfl)

/-- Counterexample for C2: the text `42` parses successfully to a
non-object JSON value, and the pipeline classifies it as a validation
failure with the message `Output is not a JSON object` — not as the
`ParseError` the claim asserts for non-object values. -/
theorem parse_nonobject_counterexample :
    jsonParse "42".data = some (Json.num 42)
    ∧ parseAndValidate "42".data
        = ExtractResult.validationError "Output is not a JSON object".data := by
  exact ⟨rfl, rfl⟩

/-- Searching positions 0 through `n` splits into testing position 0 and
searching the shifted range. -/
theorem find?_range_succ (p : Nat → Bool) (n : Nat) :
    (List.range (n + 1)).find? p
      = if p 0 = true then some 0
        else ((List.range n).find? (fun k => p (k + 1))).map (· + 1) := by
  rw [List.range_succ_eq_map, List.find?_cons]
  cases h : p 0 with
  | false =>
    rw [if_neg (by simp [h])]
    rw [List.find?_map]
    rfl
  | true => rw [if_pos rfl]

/-- The scanning loop returns the consumed prefix ending where the
running depth first reaches zero, as located by `hitIdx`. -/
theorem scanBalanced_eq_hitIdx : ∀ (cs : List Char) (d : Int) (acc : List Char),
    scanBalanced cs d acc = (hitIdx cs d).map (fun k => acc ++ cs.take (k + 1)) := by
  intro cs
  induction cs with
  | nil => intro d acc; rfl
  | cons c rest ih =>
    intro d acc
    simp only [scanBalanced, hitIdx]
    by_cases h1 : c = '\x7b'
    · rw [if_pos h1, if_pos h1, ih]
      cases h : hitIdx rest (d + 1) with
      | none => rfl
      | some k => simp [List.take_succ_cons]
    · rw [if_neg h1, if_neg h1]
      by_cases h2 : c = '\x7d'
      · rw [if_pos h2, if_pos h2]
        by_cases h3 : d - 1 = 0
        · rw [if_pos h3, if_pos h3]
          simp [List.take_succ_cons]
        · rw [if_neg h3, if_neg h3, ih]
          cases h : hitIdx rest (d - 1) with
          | none => rfl
          | some k => simp [List.take_succ_cons]
      · rw [if_neg h2, if_neg h2, ih]
        cases h : hitIdx rest d with
        | none => rfl
        | some k => simp [List.take_succ_cons]

/-- The position found by the scanning loop is the first position whose
closing brace brings the running depth (started at `d`) to zero. -/
theorem hitIdx_eq_find : ∀ (cs : List Char) (d : Int),
    hitIdx cs d = (List.range cs.length).find?
      (fun k => decide ((cs.drop k).head? = some '\x7d'
        ∧ d + braceDepthL (cs.take (k + 1)) = 0)) := by
  intro cs
  induction cs with
  | nil => intro d; rfl
  | cons c rest ih =>
    intro d
    simp only [List.length_cons]
    rw [find?_range_succ]
    have hp0 : (decide (((c :: rest).drop 0).head? = some '\x7d'
        ∧ d + braceDepthL ((c :: rest).take (0 + 1)) = 0))
        = decide (c = '\x7d' ∧ d + braceDelta c = 0) := by
      rw [decide_eq_decide]
      simp [braceDepthL]
    have hshift : (fun k => decide (((c :: rest).drop (k + 1)).head? = some '\x7d'
        ∧ d + braceDepthL ((c :: rest).take (k + 1 + 1)) = 0))
        = (fun k => decide ((rest.drop k).head? = some '\x7d'
            ∧ (d + braceDelta c) + braceDepthL (rest.take (k + 1)) = 0)) := by
      funext k
      rw [decide_eq_decide]
      rw [List.drop_succ_cons, List.take_succ_cons]
      simp only [braceDepthL]
      constructor
      · rintro ⟨ha, hb⟩
        exact ⟨ha, by omega⟩
      · rintro ⟨ha, hb⟩
        exact ⟨ha, by omega⟩
    simp only [hp0, hshift]
    by_cases h1 : c = '\x7b'
    · have hne : ¬ (c = '\x7d' ∧ d + braceDelta c = 0) := by
        rintro ⟨hc, _⟩
        rw [h1] at hc
        exact absurd hc (by decide)
      rw [if_neg (by simp [hne])]
      have hδ : d + braceDelta c = d + 1 := by rw [h1]; rfl
      simp only [hδ]
      rw [hitIdx, if_pos h1, ih (d + 1)]
    · by_cases h2 : c = '\x7d'
      · have hδ : d + braceDelta c = d - 1 := by
          rw [h2]
          show d + (-1) = d - 1
          omega
        by_cases h3 : d - 1 = 0
        · rw [if_pos (by
            simp only [decide_eq_true_eq]
            exact ⟨h2, by rw [hδ]; exact h3⟩)]
          rw [hitIdx, if_neg h1, if_pos h2, if_pos h3]
        · have hne : ¬ (c = '\x7d' ∧ d + braceDelta c = 0) := by
            rintro ⟨_, hb⟩
            rw [hδ] at hb
            exact h3 hb
          rw [if_neg (by simp [hne])]
          simp only [hδ]
          rw [hitIdx, if_neg h1, if_pos h2, if_neg h3, ih (d - 1)]
      · have hne : ¬ (c = '\x7d' ∧ d + braceDelta c = 0) := fun hc => h2 hc.1
        rw [if_neg (by simp [hne])]
        have hδ : d + braceDelta c = d := by
          have : braceDelta c = 0 := by
            unfold braceDelta
            rw [if_neg h1, if_neg h2]
          rw [this, add_zero]
        simp only [hδ]
        rw [hitIdx, if_neg h1, if_neg h2, ih d]

/-- C3: `extract_first_json` agrees with its specification — absent when
there is no opening brace, otherwise exactly the substring from the
first opening brace through the closing brace that first brings the
brace depth back to zero, and absent when the depth never returns to
zero. -/
theorem extractFirstJson_matches_spec :
    ∀ text : List Char, extractFirstJson text = extractFirstJsonSpec text := by
  intro text
  have hdefE : extractFirstJson text =
      (match text.dropWhile (fun c => c != '\x7b') with
      | [] => none
      | _ :: _ => scanBalanced (text.dropWhile (fun c => c != '\x7b')) 0 []) := rfl
  have hdefS : extractFirstJsonSpec text =
      (match text.dropWhile (fun c => c != '\x7b') with
      | [] => none
      | _ :: _ =>
        match (List.range (text.dropWhile (fun c => c != '\x7b')).length).find?
            (closesAt (text.dropWhile (fun c => c != '\x7b'))) with
        | some k => some ((text.dropWhile (fun c => c != '\x7b')).take (k + 1))
        | none => none) := rfl
  rw [hdefE, hdefS]
  cases htail : text.dropWhile (fun c => c != '\x7b') with
  | nil => rfl
  | cons c rest =>
    dsimp only
    rw [scanBalanced_eq_hitIdx, hitIdx_eq_find]
    have hpred : (fun k => decide (((c :: rest).drop k).head? = some '\x7d'
        ∧ (0 : Int) + braceDepthL ((c :: rest).take (k + 1)) = 0))
        = closesAt (c :: rest) := by
      funext k
      unfold closesAt
      rw [decide_eq_decide]
      rw [zero_add]
    rw [hpred]
    cases h : (List.range (c :: rest).length).find? (closesAt (c :: rest)) with
    | none => rfl
    | some k => simp

/-- C8 (amended): the mock selection policy builds its pool in fixed
order — matches are the entries whose lower-cased mood field is a
substring of the lower-cased input, the full database standing in when
there are none; a supplied positive `top_k` smaller than the pool
replaces the pool by a random sample of exactly `top_k` entries and
otherwise leaves it unchanged; a supplied `top_p` in the open interval
(0,1) then keeps the first `max 1 (ceil (size * top_p))` entries of the
now-fixed pool; `top_k` is applied before `top_p`. -/
theorem mockPool_stages :
    ∀ (u : Option (List Char)) (db : List SRecord) (k : Int) (p : ℚ)
      (sample : List SRecord → Nat → List SRecord),
      (∀ l n, n ≤ l.length → (sample l n).length = n) →
      ((moodMatches u db ≠ [] → baseCandidates u db = moodMatches u db)
      ∧ (moodMatches u db = [] → baseCandidates u db = db)
      ∧ (0 < k → k < ((baseCandidates u db).length : Int) →
          (applyTopK sample (some k) (baseCandidates u db)).length = k.toNat)
      ∧ (¬(0 < k ∧ k < ((baseCandidates u db).length : Int)) →
          applyTopK sample (some k) (baseCandidates u db) = baseCandidates u db)
      ∧ (∀ pool : List SRecord, 0 < p → p < 1 → pool ≠ [] →
          applyTopP (some p) pool = pool.take (max 1 (Nat.ceil ((pool.length : ℚ) * p)))
          ∧ (applyTopP (some p) pool).length = max 1 (Nat.ceil ((pool.length : ℚ) * p)))
      ∧ (∀ tk tp, mockPool u db tk tp sample
          = applyTopP tp (applyTopK sample tk (baseCandidates u db)))) := by
  intro u db k p sample hsample
  refine ⟨?_, ?_, ?_, ?_, ?_, ?_⟩
  · intro hne
    unfold baseCandidates
    cases h : moodMatches u db with
    | nil => exact absurd h hne
    | cons m ms => rfl
  · intro hnil
    unfold baseCandidates
    rw [hnil]
  · intro hk hlen
    unfold applyTopK
    dsimp only
    rw [if_pos hk, if_pos hlen]
    exact hsample _ _ (by omega)
  · intro hnot
    unfold applyTopK
    dsimp only
    by_cases hk : 0 < k
    · rw [if_pos hk, if_neg (fun hlt => hnot ⟨hk, hlt⟩)]
    · rw [if_neg hk]
  · intro pool hp0 hp1 hne
    cases pool with
    | nil => exact absurd rfl hne
    | cons x xs =>
      have harm : applyTopP (some p) (x :: xs)
          = (x :: xs).take (max 1 (Nat.ceil (((x :: xs).length : ℚ) * p))) := by
        unfold applyTopP
        dsimp only
        rw [if_pos ⟨hp0, hp1⟩]
      refine ⟨harm, ?_⟩
      rw [harm, List.length_take]
      have hceil : Nat.ceil (((x :: xs).length : ℚ) * p) ≤ (x :: xs).length := by
        rw [Nat.ceil_le]
        calc ((x :: xs).length : ℚ) * p ≤ ((x :: xs).length : ℚ) * 1 := by
              apply mul_le_mul_of_nonneg_left (le_of_lt hp1) (by positivity)
          _ = ((x :: xs).length : ℚ) := by ring
      have hlen1 : 1 ≤ (x :: xs).length := by simp
      omega
  · intro tk tp
    rfl

/-- Witness for C8: with `top_k = 2`, a database of five matching
entries and a sampling oracle that takes a prefix, the pool after the
`top_k` stage has exactly 2 entries. -/
theorem mockPool_stages_witness :
    (applyTopK (fun l n => l.take n) (some 2)
      (baseCandidates (some "tired".data)
        [⟨some "tired".data, some "q1".data, some "a".data, some "s".data⟩,
         ⟨some "tired".data, some "q2".data, some "a".data, some "s".data⟩,
         ⟨some "tired".data, some "q3".data, some "a".data, some "s".data⟩,
         ⟨some "tired".data, some "q4".data, some "a".data, some "s".data⟩,
         ⟨some "tired".data, some "q5".data, some "a".data, some "s".data⟩])).length = 2 := by
  have hsample : ∀ (l : List SRecord) (n : Nat), n ≤ l.length → ((l.take n)).length = n := by
    intro l n h
    rw [List.length_take]
    omega
  exact (mockPool_stages (some "tired".data) _ 2 (1 / 2) (fun l n => l.take n)
    hsample).2.2.1 (by decide) (by decide)

/-- Counterexample for C8: the code lower-cases each entry's mood field
before the substring test.  For the input `sad` and a database whose
first entry has mood `SAD`, the code's matches are non-empty and the
pool is that single entry, while the claim's matches — taking the mood
field as written — are empty, which under the claim would make the pool
the full two-entry database. -/
theorem mockPool_mood_case_counterexample :
    baseCandidates (some "sad".data)
        [⟨some "SAD".data, some "q1".data, some "a1".data, some "s1".data⟩,
         ⟨some "zzz".data, some "q2".data, some "a2".data, some "s2".data⟩]
      = [⟨some "SAD".data, some "q1".data, some "a1".data, some "s1".data⟩]
    ∧ ([⟨some "SAD".data, some "q1".data, some "a1".data, some "s1".data⟩,
        (⟨some "zzz".data, some "q2".data, some "a2".data, some "s2".data⟩ : SRecord)].filter
          (fun q => isSubstringL (q.mood.getD []) (toLowerList "sad".data))) = []
    ∧ [(⟨some "SAD".data, some "q1".data, some "a1".data, some "s1".data⟩ : SRecord)]
        ≠ [⟨some "SAD".data, some "q1".data, some "a1".data, some "s1".data⟩,
           ⟨some "zzz".data, some "q2".data, some "a2".data, some "s2".data⟩] := by
  refine ⟨by decide, by decide, by decide⟩

/-- C9: selection from the pool — the fixed fallback record (mood equal
to the raw input, the generic encouragement quote, author `AI Coach`,
the generic suggested action) whenever the pool is empty; the first pool
entry, deterministically, when the temperature is at most 0; the
injected random choice from the pool when the temperature is positive,
so that whenever that choice lies in the pool the result does too. -/
theorem mockModel_selection :
    ∀ (u : Option (List Char)) (db : List SRecord) (t : ℚ) (tk : Option Int) (tp : Option ℚ)
      (sample : List SRecord → Nat → List SRecord) (choice : List SRecord → SRecord),
      (mockPool u db tk tp sample = [] → mockModel u db t tk tp sample choice = fallbackRecord u)
      ∧ (∀ x xs, mockPool u db tk tp sample = x :: xs → t ≤ 0 →
          mockModel u db t tk tp sample choice = x)
      ∧ (∀ x xs, mockPool u db tk tp sample = x :: xs → 0 < t →
          mockModel u db t tk tp sample choice = choice (mockPool u db tk tp sample))
      ∧ (∀ x xs, mockPool u db tk tp sample = x :: xs → 0 < t →
          choice (mockPool u db tk tp sample) ∈ mockPool u db tk tp sample →
          mockModel u db t tk tp sample choice ∈ mockPool u db tk tp sample)
      ∧ fallbackRecord u = SRecord.mk u
          (some "Keep going, you\x27re doing better than you think.".data)
          (some "AI Coach".data) (some "Pause and breathe.".data) := by
  intro u db t tk tp sample choice
  have hdef : mockModel u db t tk tp sample choice =
      (match mockPool u db tk tp sample with
      | [] => fallbackRecord u
      | x :: xs => if t ≤ 0 then x else choice (x :: xs)) := rfl
  refine ⟨?_, ?_, ?_, ?_, rfl⟩
  · intro hpool
    rw [hdef, hpool]
  · intro x xs hpool ht
    rw [hdef, hpool]
    exact if_pos ht
  · intro x xs hpool ht
    rw [hdef, hpool]
    dsimp only
    rw [if_neg (not_le.mpr ht)]
  · intro x xs hpool ht hmem
    rw [hdef, hpool]
    dsimp only
    rw [if_neg (not_le.mpr ht)]
    rw [hpool] at hmem
    exact hmem

/-- Witness for C9: with temperature 0 and a one-entry matching pool the
first pool entry is returned. -/
theorem mockModel_selection_witness :
    mockModel (some "tired".data)
        [⟨some "tired".data, some "q1".data, some "a".data, some "s".data⟩]
        0 none none (fun l _ => l) (fun l => l.headD (fallbackRecord none))
      = ⟨some "tired".data, some "q1".data, some "a".data, some "s".data⟩ := by
  exact (mockModel_selection (some "tired".data) _ 0 none none (fun l _ => l)
      (fun l => l.headD (fallbackRecord none))).2.1
    ⟨some "tired".data, some "q1".data, some "a".data, some "s".data⟩ [] (by decide) le_rfl

/-- The first character surviving a whitespace drop is not whitespace. -/
theorem dropWhile_head_false : ∀ (l : List Char) (a : Char) (as : List Char),
    l.dropWhile isPySpace = a :: as → isPySpace a = false := by
  intro l
  induction l with
  | nil => intro a as h; exact absurd h (by simp)
  | cons c tl ih =>
    intro a as h
    rw [List.dropWhile_cons] at h
    by_cases hc : isPySpace c = true
    · rw [if_pos hc] at h
      exact ih a as h
    · rw [if_neg hc] at h
      cases h
      simpa using hc

/-- Dropping leading whitespace is idempotent. -/
theorem dropWhile_dropWhile (l : List Char) :
    (l.dropWhile isPySpace).dropWhile isPySpace = l.dropWhile isPySpace := by
  cases h : l.dropWhile isPySpace with
  | nil => rfl
  | cons a as =>
    rw [List.dropWhile_cons, dropWhile_head_false l a as h]
    simp

/-- A non-empty list unchanged by a whitespace drop starts with a
non-whitespace character. -/
theorem head_not_space (c : Char) (tl : List Char)
    (h : (c :: tl).dropWhile isPySpace = c :: tl) : isPySpace c = false := by
  by_cases hc : isPySpace c = true
  · rw [List.dropWhile_cons, if_pos hc] at h
    have hle := (List.dropWhile_suffix (l := tl) isPySpace).length_le
    rw [h] at hle
    simp at hle
  · simpa using hc

/-- A list whose ends are already free of whitespace is unchanged by
`pyStrip`. -/
theorem pyStrip_eq_self (text : List Char) (h1 : text.dropWhile isPySpace = text)
    (h2 : text.reverse.dropWhile isPySpace = text.reverse) : pyStrip text = text := by
  unfold pyStrip
  rw [h1, h2, List.reverse_reverse]

/-- Dropping whitespace stops at the first block when it is non-empty
and starts with a non-whitespace character. -/
theorem dropWhile_append_keep (first rest : List Char) (hne : first ≠ [])
    (h1 : first.dropWhile isPySpace = first) :
    (first ++ rest).dropWhile isPySpace = first ++ rest := by
  cases first with
  | nil => exact absurd rfl hne
  | cons ic itl =>
    rw [List.cons_append, List.dropWhile_cons, head_not_space ic itl h1]
    simp

/-- The result of `pyStrip` is free of whitespace at both ends. -/
theorem pyStrip_fixed (text : List Char) :
    (pyStrip text).dropWhile isPySpace = pyStrip text
    ∧ (pyStrip text).reverse.dropWhile isPySpace = (pyStrip text).reverse := by
  constructor
  · show (((text.dropWhile isPySpace).reverse.dropWhile isPySpace).reverse).dropWhile isPySpace
      = ((text.dropWhile isPySpace).reverse.dropWhile isPySpace).reverse
    have hA : (text.dropWhile isPySpace).dropWhile isPySpace = text.dropWhile isPySpace :=
      dropWhile_dropWhile text
    obtain ⟨pre, hpre⟩ :=
      List.dropWhile_suffix (l := (text.dropWhile isPySpace).reverse) isPySpace
    have hA2 : text.dropWhile isPySpace =
        ((text.dropWhile isPySpace).reverse.dropWhile isPySpace).reverse ++ pre.reverse := by
      conv_lhs => rw [← List.reverse_reverse (text.dropWhile isPySpace), ← hpre]
      rw [List.reverse_append]
    cases hB : ((text.dropWhile isPySpace).reverse.dropWhile isPySpace).reverse with
    | nil => rfl
    | cons bc btl =>
      have hbc : isPySpace bc = false := by
        apply head_not_space bc (btl ++ pre.reverse)
        rw [← List.cons_append, ← hB, ← hA2]
        exact hA
      rw [List.dropWhile_cons, hbc]
      simp
  · show ((((text.dropWhile isPySpace).reverse.dropWhile isPySpace).reverse).reverse).dropWhile
        isPySpace
      = (((text.dropWhile isPySpace).reverse.dropWhile isPySpace).reverse).reverse
    rw [List.reverse_reverse]
    exact dropWhile_dropWhile _

/-- `pyStrip` is idempotent. -/
theorem pyStrip_idem (text : List Char) : pyStrip (pyStrip text) = pyStrip text :=
  pyStrip_eq_self _ (pyStrip_fixed text).1 (pyStrip_fixed text).2

/-- C4 (amended): `strip_code_fences` trims surrounding whitespace;
when the trimmed text carries no leading and no trailing three-backtick
fence it is returned unchanged apart from that trimming; a leading fence
optionally tagged `json` — in any letter case — and a trailing fence are
removed together with the whitespace separating them from the interior,
which is returned exactly; a language tag other than `json` is not
removed. -/
theorem stripCodeFences_spec :
    (∀ text : List Char,
      startsWithL backticks3 (pyStrip text) = false →
      endsWithL backticks3 (pyStrip text) = false →
      stripCodeFences text = pyStrip text)
    ∧ (∀ tag inner : List Char, toLowerList tag = jsonTag →
        inner ≠ [] → inner.dropWhile isPySpace = inner →
        inner.reverse.dropWhile isPySpace = inner.reverse →
        stripCodeFences (backticks3 ++ (tag ++ ('\n' :: (inner ++ ('\n' :: backticks3)))))
          = inner)
    ∧ (∀ inner : List Char,
        inner ≠ [] → inner.dropWhile isPySpace = inner →
        inner.reverse.dropWhile isPySpace = inner.reverse →
        stripCodeFences (backticks3 ++ ('\n' :: (inner ++ ('\n' :: backticks3)))) = inner) := by
  refine ⟨?_, ?_, ?_⟩
  · intro text h1 h2
    by_cases htext : text = []
    · subst htext; rfl
    · unfold stripCodeFences
      rw [if_neg htext]
      dsimp only
      rw [if_neg (show ¬ (startsWithL backticks3 (pyStrip text) = true) from by simp [h1])]
      rw [if_neg (show ¬ (endsWithL backticks3 (pyStrip text) = true) from by simp [h2])]
      exact pyStrip_idem text
  · intro tag inner htag hne hin1 hin2
    have htaglen : tag.length = 4 := by
      have h := congrArg List.length htag
      simpa [toLowerList] using h
    have hbne : (backticks3 : List Char) ≠ [] := by simp [backticks3]
    have htext_ne : backticks3 ++ (tag ++ ('\n' :: (inner ++ ('\n' :: backticks3)))) ≠ [] := by
      simp [backticks3]
    have hassoc : backticks3 ++ (tag ++ ('\n' :: (inner ++ ('\n' :: backticks3))))
        = (backticks3 ++ (tag ++ ('\n' :: (inner ++ ['\n'])))) ++ backticks3 := by
      simp
    have hstrip : pyStrip (backticks3 ++ (tag ++ ('\n' :: (inner ++ ('\n' :: backticks3)))))
        = backticks3 ++ (tag ++ ('\n' :: (inner ++ ('\n' :: backticks3)))) := by
      apply pyStrip_eq_self
      · exact dropWhile_append_keep backticks3 _ hbne rfl
      · rw [hassoc, List.reverse_append]
        exact dropWhile_append_keep backticks3.reverse _ (by simp [backticks3]) rfl
    unfold stripCodeFences
    rw [if_neg htext_ne]
    dsimp only
    rw [hstrip]
    rw [if_pos (show startsWithL backticks3
      (backticks3 ++ (tag ++ ('\n' :: (inner ++ ('\n' :: backticks3))))) = true from rfl)]
    have hd3 : (backticks3 ++ (tag ++ ('\n' :: (inner ++ ('\n' :: backticks3))))).drop 3
        = tag ++ ('\n' :: (inner ++ ('\n' :: backticks3))) := rfl
    rw [hd3]
    have ht4 : (tag ++ ('\n' :: (inner ++ ('\n' :: backticks3)))).take 4 = tag := by
      conv_lhs => rw [← htaglen]
      exact List.take_left _ _
    rw [ht4, htag, if_pos rfl]
    have hd4 : (tag ++ ('\n' :: (inner ++ ('\n' :: backticks3)))).drop 4
        = '\n' :: (inner ++ ('\n' :: backticks3)) := by
      conv_lhs => rw [← htaglen]
      exact List.drop_left _ _
    rw [hd4]
    have hdw : (('\n' :: (inner ++ ('\n' :: backticks3))) : List Char).dropWhile isPySpace
        = inner ++ ('\n' :: backticks3) := by
      rw [List.dropWhile_cons, if_pos (show isPySpace '\n' = true from rfl)]
      exact dropWhile_append_keep inner _ hne hin1
    rw [hdw]
    have hrev : (inner ++ ('\n' :: backticks3)).reverse
        = '`' :: ('`' :: ('`' :: ('\n' :: inner.reverse))) := by
      rw [List.reverse_append]
      rfl
    have hend : endsWithL backticks3 (inner ++ ('\n' :: backticks3)) = true := by
      unfold endsWithL
      rw [hrev]
      rfl
    rw [if_pos hend, hrev]
    have hd3' : (('`' :: ('`' :: ('`' :: ('\n' :: inner.reverse)))) : List Char).drop 3
        = '\n' :: inner.reverse := rfl
    rw [hd3']
    have hdw2 : (('\n' :: inner.reverse) : List Char).dropWhile isPySpace = inner.reverse := by
      rw [List.dropWhile_cons, if_pos (show isPySpace '\n' = true from rfl)]
      exact hin2
    rw [hdw2, List.reverse_reverse]
    exact pyStrip_eq_self inner hin1 hin2
  · intro inner hne hin1 hin2
    have hbne : (backticks3 : List Char) ≠ [] := by simp [backticks3]
    have htext_ne : backticks3 ++ ('\n' :: (inner ++ ('\n' :: backticks3))) ≠ [] := by
      simp [backticks3]
    have hassoc : backticks3 ++ ('\n' :: (inner ++ ('\n' :: backticks3)))
        = (backticks3 ++ ('\n' :: (inner ++ ['\n']))) ++ backticks3 := by
      simp
    have hstrip : pyStrip (backticks3 ++ ('\n' :: (inner ++ ('\n' :: backticks3))))
        = backticks3 ++ ('\n' :: (inner ++ ('\n' :: backticks3))) := by
      apply pyStrip_eq_self
      · exact dropWhile_append_keep backticks3 _ hbne rfl
      · rw [hassoc, List.reverse_append]
        exact dropWhile_append_keep backticks3.reverse _ (by simp [backticks3]) rfl
    unfold stripCodeFences
    rw [if_neg htext_ne]
    dsimp only
    rw [hstrip]
    rw [if_pos (show startsWithL backticks3
      (backticks3 ++ ('\n' :: (inner ++ ('\n' :: backticks3)))) = true from rfl)]
    have hd3 : (backticks3 ++ ('\n' :: (inner ++ ('\n' :: backticks3)))).drop 3
        = '\n' :: (inner ++ ('\n' :: backticks3)) := rfl
    rw [hd3]
    have htake0 : (('\n' :: (inner ++ ('\n' :: backticks3))) : List Char).take 4
        = '\n' :: ((inner ++ ('\n' :: backticks3)).take 3) := rfl
    have hne4 : ¬ (toLowerList ((('\n' :: (inner ++ ('\n' :: backticks3))) : List Char).take 4)
        = jsonTag) := by
      rw [htake0]
      intro h
      unfold toLowerList at h
      rw [List.map_cons] at h
      rw [show (jsonTag : List Char) = 'j' :: ['s', 'o', 'n'] from rfl] at h
      injection h with h1 h2
      exact absurd h1 (by decide)
    rw [if_neg hne4]
    have hdw : (('\n' :: (inner ++ ('\n' :: backticks3))) : List Char).dropWhile isPySpace
        = inner ++ ('\n' :: backticks3) := by
      rw [List.dropWhile_cons, if_pos (show isPySpace '\n' = true from rfl)]
      exact dropWhile_append_keep inner _ hne hin1
    rw [hdw]
    have hrev : (inner ++ ('\n' :: backticks3)).reverse
        = '`' :: ('`' :: ('`' :: ('\n' :: inner.reverse))) := by
      rw [List.reverse_append]
      rfl
    have hend : endsWithL backticks3 (inner ++ ('\n' :: backticks3)) = true := by
      unfold endsWithL
      rw [hrev]
      rfl
    rw [if_pos hend, hrev]
    have hd3' : (('`' :: ('`' :: ('`' :: ('\n' :: inner.reverse)))) : List Char).drop 3
        = '\n' :: inner.reverse := rfl
    rw [hd3']
    have hdw2 : (('\n' :: inner.reverse) : List Char).dropWhile isPySpace = inner.reverse := by
      rw [List.dropWhile_cons, if_pos (show isPySpace '\n' = true from rfl)]
      exact hin2
    rw [hdw2, List.reverse_reverse]
    exact pyStrip_eq_self inner hin1 hin2

/-- Witness for C4: a `JSON`-tagged fenced object (upper-case tag) is
stripped to exactly the interior object text. -/
theorem stripCodeFences_spec_witness :
    stripCodeFences (backticks3
        ++ ("JSON".data ++ ('\n' :: ("\x7b\"a\":1\x7d".data ++ ('\n' :: backticks3)))))
      = "\x7b\"a\":1\x7d".data :=
  stripCodeFences_spec.2.1 "JSON".data "\x7b\"a\":1\x7d".data (by decide) (by decide) rfl rfl

/-- Counterexample for C4: a fence tagged `python` is not recognised —
only the tag `json` is — so the tag text survives into the output
instead of being removed as the claim's `any language tag` asserts. -/
theorem stripCodeFences_languageTag_counterexample :
    stripCodeFences "```python\n\x7b\x7d\n```".data = "python\n\x7b\x7d".data
    ∧ "python\n\x7b\x7d".data ≠ "\x7b\x7d".data := by
  exact ⟨rfl, by decide⟩
